import Mathlib

/-!
# Verification of the retail audit submission pipeline

A shallow embedding of the audit submission pipeline of `src/app.py`
(functions `analyze_image`, `save_audit_to_cloud`, and the capture branch of
`store_manager_interface`), together with theorems checking the
natural-language specification's claims against it.

Python strings are modelled as `List Char`; the Python string operations the
pipeline uses (`in`, `split`, `replace`, `strip`, `upper`) are given faithful
executable definitions below (ASCII-faithful; the pipeline only manipulates
ASCII marker strings).  Fallible collaborator calls (object-storage upload,
record insert) are modelled as `Except` values supplied by the environment.
-/

/-! ## Python string primitives -/

/-- `pyStartsWith pre s` holds when `pre` is a prefix of `s`
(Python `s.startswith(pre)`, used here as the matching step of `in`,
`split` and `replace`). -/
def pyStartsWith : List Char → List Char → Bool
  | [], _ => true
  | _ :: _, [] => false
  | p :: ps, c :: cs => p == c && pyStartsWith ps cs

/-- Python substring containment `sub in s`: some suffix of `s` starts with `sub`. -/
def pyIn (sub : List Char) : List Char → Bool
  | [] => sub.isEmpty
  | c :: rest => pyStartsWith sub (c :: rest) || pyIn sub rest

/-- Fuelled worker for Python `s.split(sep)` with non-empty `sep`: scan left to
right, cutting at each non-overlapping occurrence of `sep`.  The fuel is set to
`s.length` by `pySplit`, which always suffices because each step consumes at
least one character; the `0, s => [s]` row is unreachable then. -/
def splitAuxF (sep : List Char) : Nat → List Char → List (List Char)
  | _, [] => [[]]
  | 0, s => [s]
  | fuel + 1, c :: rest =>
    if pyStartsWith sep (c :: rest) then
      [] :: splitAuxF sep fuel (rest.drop (sep.length - 1))
    else
      match splitAuxF sep fuel rest with
      | [] => [[c]]
      | p :: ps => (c :: p) :: ps

/-- Python `s.split(sep)` for non-empty `sep` (the source only splits on `"|"`). -/
def pySplit (sep s : List Char) : List (List Char) :=
  splitAuxF sep s.length s

/-- Fuelled worker for Python `s.replace(old, new)` with non-empty `old`:
replace every non-overlapping occurrence, scanning left to right. -/
def replaceAuxF (old new : List Char) : Nat → List Char → List Char
  | _, [] => []
  | 0, s => s
  | fuel + 1, c :: rest =>
    if pyStartsWith old (c :: rest) then
      new ++ replaceAuxF old new fuel (rest.drop (old.length - 1))
    else
      c :: replaceAuxF old new fuel rest

/-- Python `s.replace(old, new)` for non-empty `old` (the source only replaces
the labels `"Category:"`, `"Result:"`, `"Reason:"`). -/
def pyReplace (old new s : List Char) : List Char :=
  replaceAuxF old new s.length s

/-- The ASCII whitespace characters stripped by Python `str.strip()`. -/
def isPySpace (c : Char) : Bool :=
  c == ' ' || c == '\t' || c == '\n' || c == '\r' || c == '\x0b' || c == '\x0c'

/-- Python `s.strip()`: drop whitespace from both ends. -/
def pyStrip (s : List Char) : List Char :=
  ((s.dropWhile isPySpace).reverse.dropWhile isPySpace).reverse

/-- Python `s.upper()` (ASCII-faithful). -/
def pyUpper (s : List Char) : List Char :=
  s.map Char.toUpper

/-! ## Verdict Parser (`save_audit_to_cloud`, lines 109–126) -/

/-- The structured verdict assembled by the parsing section of
`save_audit_to_cloud`: local variables `category`, `status`, `reason`. -/
structure Verdict where
  category : List Char
  status : List Char
  reason : List Char
deriving DecidableEq

def CATEGORY_LABEL : List Char := "Category:".data

def RESULT_LABEL : List Char := "Result:".data

def REASON_LABEL : List Char := "Reason:".data

def PIPE : List Char := "|".data

/-- One iteration of the `for part in parts` loop of `save_audit_to_cloud`
(lines 117–123): three independent `if <label> in part` checks, each assigning
`part.replace(<label>, "").strip()` to its field. -/
def applyPart (v : Verdict) (part : List Char) : Verdict :=
  let v1 := if pyIn CATEGORY_LABEL part then
    { v with category := pyStrip (pyReplace CATEGORY_LABEL [] part) } else v
  let v2 := if pyIn RESULT_LABEL part then
    { v1 with status := pyStrip (pyReplace RESULT_LABEL [] part) } else v1
  if pyIn REASON_LABEL part then
    { v2 with reason := pyStrip (pyReplace REASON_LABEL [] part) } else v2

/-- The parsing section of `save_audit_to_cloud` (lines 110–126): defaults
`category="General"`, `status="FAIL"`, `reason=result_text`; if `"|"` occurs,
fold the label extraction over `result_text.split("|")`; otherwise
`status = "FAIL" if "FAIL" in result_text.upper() else "PASS"`. -/
def parse_result_text (result_text : List Char) : Verdict :=
  if pyIn PIPE result_text then
    (pySplit PIPE result_text).foldl applyPart ⟨"General".data, "FAIL".data, result_text⟩
  else
    ⟨"General".data,
     if pyIn "FAIL".data (pyUpper result_text) then "FAIL".data else "PASS".data,
     result_text⟩

/-! ## Model Gateway (`analyze_image`, lines 31–102) -/

/-- Outcome of one `requests.post` dispatch to a candidate model: an HTTP
response (status code plus the embedded verdict text that line 88 would
extract), or a raised transport/extraction exception (the `except` arm,
lines 98–100). -/
inductive HttpOutcome where
  | resp (status : Nat) (text : List Char)
  | connFail
deriving DecidableEq

/-- The status codes line 91 classifies as "try the next model": `[429, 503, 404]`. -/
def RETRY_CODES : List Nat := [429, 503, 404]

/-- The all-candidates-exhausted sentinel returned at line 102. -/
def EXHAUSTED : List Char := "System Busy. Please wait 30 seconds and try again.".data

/-- The terminal-abort return of line 96: `f"AI Error {response.status_code}"`. -/
def abortText (status : Nat) : List Char :=
  "AI Error ".data ++ (Nat.repr status).data

/-- The candidate list of line 78. -/
def models_to_try : List (List Char) :=
  ["gemini-1.5-flash".data, "gemini-1.5-flash-002".data,
   "gemini-1.5-flash-8b".data, "gemini-1.5-pro".data]

/-- The failover loop of `analyze_image` (lines 80–102), instrumented with the
list of candidates actually dispatched to.  `oracle` gives each candidate's
response (each candidate is dispatched at most once, so a per-candidate
function is a faithful model of the response sequence).  Returns
`(dispatched candidates, returned text)`: status 200 returns the embedded
text, a status in `RETRY_CODES` or an exception advances to the next
candidate, any other status returns `abortText`, and an empty remainder
returns `EXHAUSTED`. -/
def analyze_image (oracle : List Char → HttpOutcome) :
    List (List Char) → List (List Char) × List Char
  | [] => ([], EXHAUSTED)
  | m :: rest =>
    match oracle m with
    | .resp status text =>
      if status = 200 then ([m], text)
      else if status ∈ RETRY_CODES then
        let r := analyze_image oracle rest
        (m :: r.1, r.2)
      else ([m], abortText status)
    | .connFail =>
      let r := analyze_image oracle rest
      (m :: r.1, r.2)

/-! ## Persistence Writer (`save_audit_to_cloud`, lines 128–159) -/

/-- The row inserted into `audit_logs` (lines 147–155). -/
structure AuditRecord where
  store_code : List Char
  manager_name : List Char
  audit_type : List Char
  result : List Char
  reason : List Char
  image_url : List Char
  created_at : List Char
deriving DecidableEq

/-- The behaviour of `save_audit_to_cloud`'s collaborators and clock for one
call: whether the storage upload (line 139) raises, the public URL the bucket
resolves (line 144), whether the record insert (line 156) raises, the
`strftime` timestamp of line 136 and the `isoformat` timestamp of line 154. -/
structure SaveEnv where
  uploadResult : Except (List Char) Unit
  publicUrl : List Char
  insertResult : Except (List Char) Unit
  timestamp : List Char
  createdAt : List Char

/-- The value `save_audit_to_cloud` returns: the 4-tuple
`(True, status, category, reason)` on success, or
`(False, str(e), "Error", "Error")` from the `except` arm (lines 157–159). -/
inductive SaveRet where
  | ok (status category reason : List Char)
  | err (msg : List Char)
deriving DecidableEq

/-- Observable effects of one `save_audit_to_cloud` call: the object key
written to storage (if the upload ran and succeeded), the `AuditRecord`
inserted (if the insert ran and succeeded), and the returned value. -/
structure SaveOutcome where
  storedKey : Option (List Char)
  inserted : Option AuditRecord
  retval : SaveRet
deriving DecidableEq

/-- `save_audit_to_cloud` (lines 107–159): parse `result_text`, derive the
object key `f"{store_code}_{timestamp}.jpg"`, upload the archive bytes,
resolve the public URL, insert the `AuditRecord`; a raise from the upload or
the insert is caught by the `try/except` and surfaced as `SaveRet.err`
(success flag `False`), with the later steps not executed. -/
def save_audit_to_cloud (env : SaveEnv) (store_code mgr_name result_text : List Char) :
    SaveOutcome :=
  let v := parse_result_text result_text
  let filename := store_code ++ "_".data ++ env.timestamp ++ ".jpg".data
  match env.uploadResult with
  | .error e => ⟨none, none, .err e⟩
  | .ok _ =>
    let record : AuditRecord :=
      ⟨store_code, mgr_name, v.category, v.status, v.reason, env.publicUrl, env.createdAt⟩
    match env.insertResult with
    | .error e => ⟨some filename, none, .err e⟩
    | .ok _ => ⟨some filename, some record, .ok v.status v.category v.reason⟩

/-! ## Capture pipeline (`store_manager_interface`, lines 215–246) -/

/-- What one "Run Smart Audit" click does after `analyze_image` returns:
either the raw text is shown as an error with no save attempted
(line 246, when `"AI Error" in result_text`), or `save_audit_to_cloud` runs. -/
inductive PipelineOutcome where
  | errorShown (msg : List Char)
  | saved (out : SaveOutcome)
deriving DecidableEq

/-- The branch at lines 222–246: `if "AI Error" not in result_text:` save to
cloud, `else:` show `result_text` as an error. -/
def run_smart_audit (env : SaveEnv) (store_code mgr result_text : List Char) :
    PipelineOutcome :=
  if pyIn "AI Error".data result_text then .errorShown result_text
  else .saved (save_audit_to_cloud env store_code mgr result_text)

/-- The full capture pipeline of lines 215–246: run the gateway over the fixed
candidate list, then dispatch on its returned text. -/
def audit_pipeline (env : SaveEnv) (oracle : List Char → HttpOutcome)
    (store_code mgr : List Char) : PipelineOutcome :=
  run_smart_audit env store_code mgr (analyze_image oracle models_to_try).2

/-- The `AuditRecord` the pipeline inserted, if any. -/
def outcome_inserted : PipelineOutcome → Option AuditRecord
  | .errorShown _ => none
  | .saved o => o.inserted

/-- The object key the pipeline stored archive bytes under, if any. -/
def outcome_stored_key : PipelineOutcome → Option (List Char)
  | .errorShown _ => none
  | .saved o => o.storedKey

/-! ## Image Normalizer (lines 32–34 and 129–133) -/

/-- Dimensions of the transport-form encoding built at lines 32–34:
`image.save(buffered, format="JPEG")` serializes the image as-is, with no
rescaling, so the encoded dimensions are the input dimensions. -/
def toTransportDims (w h : Nat) : Nat × Nat := (w, h)

/-- Nearest-integer rational rounding `round(num / den)` (half away from
zero), modelling the floating-point rounding of PIL's aspect computation. -/
def rnd (num den : Nat) : Nat := (num + den / 2) / den

/-- Dimension change performed by PIL `Image.thumbnail((bound, bound))` at
line 130: a no-op when both edges are already within `bound`, otherwise an
in-place shrink preserving the aspect ratio, with the longer edge set to
`bound` and the shorter edge rounded to at least 1. -/
def thumbnail_dims (bound w h : Nat) : Nat × Nat :=
  if w ≤ bound ∧ h ≤ bound then (w, h)
  else if w ≤ h then (max 1 (rnd (bound * w) h), bound)
  else (bound, max 1 (rnd (bound * h) w))

/-- A PIL image object's state: a heap of image objects addressed by `Nat`
identifiers (ids below `next` are allocated), each holding its dimensions.
This makes the mutation structure of the source explicit: `Image.copy`
allocates a fresh object, `Image.thumbnail` mutates one object in place. -/
structure ImageHeap where
  dims : Nat → Nat × Nat
  next : Nat

/-- `image.copy()` (line 129): allocate a fresh image with the same
dimensions; returns the updated heap and the new image's id. -/
def heap_copy (H : ImageHeap) (i : Nat) : ImageHeap × Nat :=
  (⟨fun j => if j = H.next then H.dims i else H.dims j, H.next + 1⟩, H.next)

/-- `image.thumbnail((bound, bound))` (line 130): mutate image `i` in place. -/
def heap_thumbnail (bound : Nat) (H : ImageHeap) (i : Nat) : ImageHeap :=
  ⟨fun j => if j = i then thumbnail_dims bound (H.dims i).1 (H.dims i).2
            else H.dims j,
   H.next⟩

/-- The image handling of `save_audit_to_cloud` (lines 129–133):
`image = image.copy()` rebinds the local name to a fresh copy, then
`image.thumbnail((800, 800))` mutates that copy; the archive bytes are encoded
from the copy.  Returns the heap after the call and the archived image's id. -/
def save_audit_image_steps (H : ImageHeap) (i : Nat) : ImageHeap × Nat :=
  let cp := heap_copy H i
  (heap_thumbnail 800 cp.1 cp.2, cp.2)

/-- The image handling of the whole pipeline for caller image `i`:
`analyze_image` (lines 32–34) only serializes `i` into a buffer, performing no
heap operation, then `save_audit_to_cloud` performs `save_audit_image_steps`. -/
def pipeline_image_heap (H : ImageHeap) (i : Nat) : ImageHeap :=
  (save_audit_image_steps H i).1

/-! ## Claim-side predicates and concrete inputs -/

/-- The spec's terminal classification for claim C4: a response that is
neither 2xx nor transient-classified. -/
def claimTerminal : HttpOutcome → Bool
  | .resp status _ => decide (status < 200 ∨ 299 < status) && decide (status ∉ RETRY_CODES)
  | .connFail => false

/-- `segFor lab s v`: segment `s` is optional leading whitespace, then the
label `lab`, then the value `v`; the value does not itself contain the label,
the segment contains no delimiter, and the segment contains none of the other
two labels. -/
def segFor (lab s v : List Char) : Prop :=
  s = s.takeWhile isPySpace ++ lab ++ v ∧ pyIn lab v = false ∧ '|' ∉ s ∧
  ∀ other ∈ [CATEGORY_LABEL, RESULT_LABEL, REASON_LABEL],
    other ≠ lab → pyIn other s = false

instance (lab s v : List Char) : Decidable (segFor lab s v) := by
  unfold segFor
  infer_instance

/-- `s1`, `s2`, `s3` are the three labelled segments, in any of the six
possible orders, with values `vc` (Category), `vr` (Result), `vn` (Reason). -/
def threeSegs (vc vr vn s1 s2 s3 : List Char) : Prop :=
  (segFor CATEGORY_LABEL s1 vc ∧ segFor RESULT_LABEL s2 vr ∧ segFor REASON_LABEL s3 vn) ∨
  (segFor CATEGORY_LABEL s1 vc ∧ segFor REASON_LABEL s2 vn ∧ segFor RESULT_LABEL s3 vr) ∨
  (segFor RESULT_LABEL s1 vr ∧ segFor CATEGORY_LABEL s2 vc ∧ segFor REASON_LABEL s3 vn) ∨
  (segFor RESULT_LABEL s1 vr ∧ segFor REASON_LABEL s2 vn ∧ segFor CATEGORY_LABEL s3 vc) ∨
  (segFor REASON_LABEL s1 vn ∧ segFor CATEGORY_LABEL s2 vc ∧ segFor RESULT_LABEL s3 vr) ∨
  (segFor REASON_LABEL s1 vn ∧ segFor RESULT_LABEL s2 vr ∧ segFor CATEGORY_LABEL s3 vc)

/-- An environment whose storage and record-store collaborators both succeed. -/
def healthyEnv : SaveEnv :=
  ⟨.ok (), "https://cloud.example/audit-photos/S001.jpg".data, .ok (),
   "20260101_000000".data, "2026-01-01T00:00:00".data⟩

/-- An environment whose storage upload raises. -/
def failEnv : SaveEnv :=
  ⟨.error "storage unreachable".data, "https://cloud.example/x.jpg".data, .ok (),
   "20260101_000000".data, "2026-01-01T00:00:00".data⟩

/-- An oracle whose first candidate answers with a terminal 403. -/
def terminalOracle : List Char → HttpOutcome :=
  fun m => if m = "gemini-1.5-flash".data then .resp 403 "quota exceeded".data
           else .resp 200 "ok".data

/-- An oracle whose every candidate answers with a terminal 400. -/
def badRequestOracle : List Char → HttpOutcome :=
  fun _ => .resp 400 "bad request".data

/-- A one-image heap holding a 1600×1200 image. -/
def bigImageHeap : ImageHeap := ⟨fun _ => (1600, 1200), 1⟩

/-! ## Toolkit: characterizations of the string primitives -/

theorem pyStartsWith_iff (pre s : List Char) :
    pyStartsWith pre s = true ↔ ∃ rest, s = pre ++ rest := by
  induction pre generalizing s with
  | nil => simp [pyStartsWith]
  | cons p ps ih =>
    cases s with
    | nil => simp [pyStartsWith]
    | cons c cs =>
      simp only [pyStartsWith, Bool.and_eq_true, beq_iff_eq, ih, List.cons_append,
        List.cons.injEq]
      constructor
      · rintro ⟨hpc, rest, hrest⟩
        exact ⟨rest, hpc.symm, hrest⟩
      · rintro ⟨rest, h1, h2⟩
        exact ⟨h1.symm, rest, h2⟩

theorem pyStartsWith_append_self (pre rest : List Char) :
    pyStartsWith pre (pre ++ rest) = true :=
  (pyStartsWith_iff pre (pre ++ rest)).mpr ⟨rest, rfl⟩

theorem pyStartsWith_extend {pre p : List Char} (t : List Char)
    (h : pyStartsWith pre p = true) : pyStartsWith pre (p ++ t) = true := by
  rcases (pyStartsWith_iff pre p).mp h with ⟨rest, hrest⟩
  exact (pyStartsWith_iff pre (p ++ t)).mpr ⟨rest ++ t, by simp [hrest]⟩

theorem pyIn_iff (sub s : List Char) :
    pyIn sub s = true ↔ ∃ pre post, s = pre ++ sub ++ post := by
  induction s with
  | nil =>
    simp only [pyIn, List.isEmpty_iff]
    constructor
    · intro h; exact ⟨[], [], by simp [h]⟩
    · rintro ⟨pre, post, h⟩
      rcases List.append_eq_nil.mp ((List.append_eq_nil).mp h.symm).1 with ⟨-, h2⟩
      exact h2
  | cons c rest ih =>
    simp only [pyIn, Bool.or_eq_true, ih, pyStartsWith_iff]
    constructor
    · rintro (⟨r, hr⟩ | ⟨pre, post, h⟩)
      · exact ⟨[], r, by simp [hr]⟩
      · exact ⟨c :: pre, post, by simp [h]⟩
    · rintro ⟨pre, post, h⟩
      cases pre with
      | nil => exact Or.inl ⟨post, by simpa using h⟩
      | cons x xs =>
        rcases List.cons_eq_cons.mp h with ⟨-, h2⟩
        exact Or.inr ⟨xs, post, h2⟩

theorem pyIn_append_self (sub post : List Char) :
    pyIn sub (sub ++ post) = true :=
  (pyIn_iff sub (sub ++ post)).mpr ⟨[], post, by simp⟩

theorem pyIn_of_startsWith {sub s : List Char} (h : pyStartsWith sub s = true) :
    pyIn sub s = true := by
  rcases (pyStartsWith_iff sub s).mp h with ⟨rest, hrest⟩
  exact hrest ▸ pyIn_append_self sub rest

theorem pyIn_singleton (c : Char) (s : List Char) :
    pyIn [c] s = true ↔ c ∈ s := by
  rw [pyIn_iff]
  constructor
  · rintro ⟨pre, post, h⟩; simp [h]
  · intro h
    rcases List.append_of_mem h with ⟨pre, post, h⟩
    exact ⟨pre, post, by simp [h]⟩

theorem pyIn_of_pyIn_drop {sub s : List Char} (n : Nat)
    (h : pyIn sub (s.drop n) = true) : pyIn sub s = true := by
  rcases (pyIn_iff sub (s.drop n)).mp h with ⟨pre, post, hd⟩
  refine (pyIn_iff sub s).mpr ⟨s.take n ++ pre, post, ?_⟩
  conv_lhs => rw [← List.take_append_drop n s]
  simp [hd]

theorem pyIn_extend {sub p : List Char} (t : List Char)
    (h : pyIn sub p = true) : pyIn sub (p ++ t) = true := by
  rcases (pyIn_iff sub p).mp h with ⟨pre, post, hd⟩
  exact (pyIn_iff sub (p ++ t)).mpr ⟨pre, post ++ t, by simp [hd]⟩

theorem pyIn_nil_sub (s : List Char) : pyIn [] s = true := by
  cases s <;> simp [pyIn, pyStartsWith]

theorem replaceAuxF_fuel (old new : List Char) :
    ∀ (f1 f2 : Nat) (s : List Char), s.length ≤ f1 → s.length ≤ f2 →
      replaceAuxF old new f1 s = replaceAuxF old new f2 s := by
  intro f1
  induction f1 with
  | zero =>
    intro f2 s hs1 _
    have hnil : s = [] := List.length_eq_zero.mp (Nat.le_zero.mp hs1)
    subst hnil
    cases f2 <;> rfl
  | succ a ih =>
    intro f2 s hs1 hs2
    cases s with
    | nil => cases f2 <;> rfl
    | cons c rest =>
      cases f2 with
      | zero => simp at hs2
      | succ b =>
        have hr1 : rest.length ≤ a := by simpa using hs1
        have hr2 : rest.length ≤ b := by simpa using hs2
        have hd : (rest.drop (old.length - 1)).length ≤ rest.length := by
          simp [List.length_drop]
        simp only [replaceAuxF]
        cases hsw : pyStartsWith old (c :: rest) <;> simp only [hsw, Bool.false_eq_true, if_false, if_true]
        · exact congrArg (c :: ·) (ih b rest hr1 hr2)
        · exact congrArg (new ++ ·) (ih b _ (le_trans hd hr1) (le_trans hd hr2))

theorem pyReplace_cons (old new : List Char) (c : Char) (rest : List Char) :
    pyReplace old new (c :: rest) =
      if pyStartsWith old (c :: rest) then
        new ++ pyReplace old new (rest.drop (old.length - 1))
      else c :: pyReplace old new rest := by
  have hd : (rest.drop (old.length - 1)).length ≤ rest.length := by
    simp [List.length_drop]
  show replaceAuxF old new (rest.length + 1) (c :: rest) = _
  simp only [replaceAuxF]
  cases hsw : pyStartsWith old (c :: rest) <;> simp only [hsw, Bool.false_eq_true, if_false, if_true]
  · rfl
  · exact congrArg (new ++ ·)
      (replaceAuxF_fuel old new rest.length _ _ hd le_rfl)

theorem pyReplace_of_not_pyIn {old : List Char} (new : List Char) {s : List Char}
    (h : pyIn old s = false) : pyReplace old new s = s := by
  induction s with
  | nil => rfl
  | cons c rest ih =>
    simp only [pyIn, Bool.or_eq_false_iff] at h
    rw [pyReplace_cons, h.1]
    simp [ih h.2]

theorem pyReplace_label {old : List Char} (hne : old ≠ []) (new v : List Char)
    (hv : pyIn old v = false) : pyReplace old new (old ++ v) = new ++ v := by
  cases old with
  | nil => exact absurd rfl hne
  | cons o os =>
    rw [List.cons_append, pyReplace_cons]
    have hsw : pyStartsWith (o :: os) (o :: (os ++ v)) = true := by
      have := pyStartsWith_append_self (o :: os) v
      simpa using this
    rw [hsw]
    simp only [if_true, List.length_cons, Nat.add_sub_cancel]
    rw [List.drop_left, pyReplace_of_not_pyIn new hv]

theorem splitAuxF_fuel (sep : List Char) :
    ∀ (f1 f2 : Nat) (s : List Char), s.length ≤ f1 → s.length ≤ f2 →
      splitAuxF sep f1 s = splitAuxF sep f2 s := by
  intro f1
  induction f1 with
  | zero =>
    intro f2 s hs1 _
    have hnil : s = [] := List.length_eq_zero.mp (Nat.le_zero.mp hs1)
    subst hnil
    cases f2 <;> rfl
  | succ a ih =>
    intro f2 s hs1 hs2
    cases s with
    | nil => cases f2 <;> rfl
    | cons c rest =>
      cases f2 with
      | zero => simp at hs2
      | succ b =>
        have hr1 : rest.length ≤ a := by simpa using hs1
        have hr2 : rest.length ≤ b := by simpa using hs2
        have hd : (rest.drop (sep.length - 1)).length ≤ rest.length := by
          simp [List.length_drop]
        simp only [splitAuxF]
        cases hsw : pyStartsWith sep (c :: rest) <;> simp only [hsw, Bool.false_eq_true, if_false, if_true]
        · rw [ih b rest hr1 hr2]
        · rw [ih b _ (le_trans hd hr1) (le_trans hd hr2)]

theorem pySplit_cons (sep : List Char) (c : Char) (rest : List Char) :
    pySplit sep (c :: rest) =
      if pyStartsWith sep (c :: rest) then
        [] :: pySplit sep (rest.drop (sep.length - 1))
      else
        match pySplit sep rest with
        | [] => [[c]]
        | p :: ps => (c :: p) :: ps := by
  have hd : (rest.drop (sep.length - 1)).length ≤ rest.length := by
    simp [List.length_drop]
  show splitAuxF sep (rest.length + 1) (c :: rest) = _
  simp only [splitAuxF]
  cases hsw : pyStartsWith sep (c :: rest) <;> simp only [hsw, Bool.false_eq_true, if_false, if_true]
  · rw [show splitAuxF sep rest.length rest = pySplit sep rest from rfl]
  · rw [splitAuxF_fuel sep rest.length _ _ hd le_rfl]
    rfl

theorem pySplit_ne_nil (sep s : List Char) : pySplit sep s ≠ [] := by
  cases s with
  | nil => simp [pySplit, splitAuxF]
  | cons c rest =>
    rw [pySplit_cons]
    cases hsw : pyStartsWith sep (c :: rest) <;> simp only [hsw, Bool.false_eq_true, if_false, if_true]
    · cases pySplit sep rest <;> simp
    · simp

theorem pySplit_head (sep : List Char) :
    ∀ (s p : List Char) (ps : List (List Char)),
      pySplit sep s = p :: ps → ∃ t, s = p ++ t := by
  intro s
  induction s with
  | nil =>
    intro p ps h
    simp only [pySplit, splitAuxF] at h
    rcases List.cons_eq_cons.mp h with ⟨h1, -⟩
    exact ⟨[], by simp [h1]⟩
  | cons c rest ih =>
    intro p ps h
    rw [pySplit_cons] at h
    cases hsw : pyStartsWith sep (c :: rest) <;> rw [hsw] at h
    · simp only [Bool.false_eq_true, if_false] at h
      rcases hq : pySplit sep rest with _ | ⟨q, qs⟩
      · exact absurd hq (pySplit_ne_nil sep rest)
      · rw [hq] at h
        rcases List.cons_eq_cons.mp h with ⟨h1, -⟩
        rcases ih q qs hq with ⟨t, ht⟩
        exact ⟨t, by simp [← h1, ht]⟩
    · simp only [if_true] at h
      rcases List.cons_eq_cons.mp h with ⟨h1, -⟩
      exact ⟨c :: rest, by simp [← h1]⟩

theorem pyIn_of_mem_pySplit (lab sep : List Char) :
    ∀ (n : Nat) (s : List Char), s.length ≤ n → ∀ p, p ∈ pySplit sep s →
      pyIn lab p = true → pyIn lab s = true := by
  intro n
  induction n with
  | zero =>
    intro s hs p hmem hin
    have hnil : s = [] := List.length_eq_zero.mp (Nat.le_zero.mp hs)
    subst hnil
    simp only [pySplit, splitAuxF, List.mem_singleton] at hmem
    subst hmem
    exact hin
  | succ k ih =>
    intro s hs p hmem hin
    cases s with
    | nil =>
      simp only [pySplit, splitAuxF, List.mem_singleton] at hmem
      subst hmem
      exact hin
    | cons c rest =>
      have hr : rest.length ≤ k := by simpa using hs
      rw [pySplit_cons] at hmem
      cases hsw : pyStartsWith sep (c :: rest) <;> rw [hsw] at hmem
      · simp only [Bool.false_eq_true, if_false] at hmem
        rcases hq : pySplit sep rest with _ | ⟨q, qs⟩
        · exact absurd hq (pySplit_ne_nil sep rest)
        · rw [hq] at hmem
          rcases List.mem_cons.mp hmem with h | h
          · subst h
            rcases pySplit_head sep rest q qs hq with ⟨t, ht⟩
            have : pyIn lab ((c :: q) ++ t) = true := pyIn_extend t hin
            rw [ht]
            simpa using this
          · have hrest : pyIn lab rest = true :=
              ih rest hr p (by rw [hq]; exact List.mem_cons_of_mem _ h) hin
            simp [pyIn, hrest]
      · simp only [if_true] at hmem
        rcases List.mem_cons.mp hmem with h | h
        · subst h
          have hlab : lab = [] := by
            simpa [pyIn, List.isEmpty_iff] using hin
          subst hlab
          exact pyIn_nil_sub _
        · have hd : (rest.drop (sep.length - 1)).length ≤ k :=
            le_trans (by simp [List.length_drop]) hr
          have hdrop : pyIn lab (rest.drop (sep.length - 1)) = true :=
            ih _ hd p h hin
          have hrest : pyIn lab rest = true := pyIn_of_pyIn_drop _ hdrop
          simp [pyIn, hrest]


theorem pySplit_single_of_not_mem {c : Char} {s : List Char} (h : c ∉ s) :
    pySplit [c] s = [s] := by
  induction s with
  | nil => rfl
  | cons x rest ih =>
    have hcx : ¬ c = x := fun hh => h (hh ▸ List.mem_cons_self x rest)
    have hsw : pyStartsWith [c] (x :: rest) = false := by
      simp [pyStartsWith, hcx]
    rw [pySplit_cons, hsw]
    simp only [Bool.false_eq_true, if_false]
    rw [ih (fun hm => h (List.mem_cons_of_mem _ hm))]

theorem pySplit_single_append {c : Char} {a : List Char} (b : List Char) (h : c ∉ a) :
    pySplit [c] (a ++ c :: b) = a :: pySplit [c] b := by
  induction a with
  | nil =>
    rw [List.nil_append, pySplit_cons]
    have hsw : pyStartsWith [c] (c :: b) = true := by simp [pyStartsWith]
    rw [hsw]
    simp
  | cons x xs ih =>
    have hcx : ¬ c = x := fun hh => h (hh ▸ List.mem_cons_self x xs)
    rw [List.cons_append, pySplit_cons]
    have hsw : pyStartsWith [c] (x :: (xs ++ c :: b)) = false := by
      simp [pyStartsWith, hcx]
    rw [hsw]
    simp only [Bool.false_eq_true, if_false]
    rw [ih (fun hm => h (List.mem_cons_of_mem _ hm))]

/-! ## Toolkit: the parser's label-extraction loop -/

theorem applyPart_cat {s : List Char} (w : Verdict)
    (h1 : pyIn CATEGORY_LABEL s = true) (h2 : pyIn RESULT_LABEL s = false)
    (h3 : pyIn REASON_LABEL s = false) :
    applyPart w s = { w with category := pyStrip (pyReplace CATEGORY_LABEL [] s) } := by
  simp [applyPart, h1, h2, h3]

theorem applyPart_res {s : List Char} (w : Verdict)
    (h1 : pyIn CATEGORY_LABEL s = false) (h2 : pyIn RESULT_LABEL s = true)
    (h3 : pyIn REASON_LABEL s = false) :
    applyPart w s = { w with status := pyStrip (pyReplace RESULT_LABEL [] s) } := by
  simp [applyPart, h1, h2, h3]

theorem applyPart_rea {s : List Char} (w : Verdict)
    (h1 : pyIn CATEGORY_LABEL s = false) (h2 : pyIn RESULT_LABEL s = false)
    (h3 : pyIn REASON_LABEL s = true) :
    applyPart w s = { w with reason := pyStrip (pyReplace REASON_LABEL [] s) } := by
  simp [applyPart, h1, h2, h3]

theorem pyReplace_ws_label (lab : List Char) (hne : lab ≠ [])
    (hl0 : ∀ l0 ∈ lab.take 1, isPySpace l0 = false) (new v : List Char)
    (hv : pyIn lab v = false) :
    ∀ sp, (∀ c ∈ sp, isPySpace c = true) →
      pyReplace lab new (sp ++ lab ++ v) = sp ++ new ++ v := by
  intro sp
  induction sp with
  | nil =>
    intro _
    simp only [List.nil_append]
    rw [pyReplace_label hne new v hv]
  | cons c sp' ih =>
    intro hsp
    rcases hlab : lab with _ | ⟨l0, ls⟩
    · exact absurd hlab hne
    · subst hlab
      have hc : isPySpace c = true := hsp c (List.mem_cons_self _ _)
      have hl : isPySpace l0 = false := hl0 l0 (by simp)
      have hne0 : (l0 == c) = false := by
        rw [beq_eq_false_iff_ne]
        intro hb
        rw [hb, hc] at hl
        cases hl
      have hshape : (c :: sp') ++ (l0 :: ls) ++ v = c :: (sp' ++ (l0 :: ls) ++ v) := by
        simp
      rw [hshape, pyReplace_cons]
      have hsw : pyStartsWith (l0 :: ls) (c :: (sp' ++ (l0 :: ls) ++ v)) = false := by
        simp [pyStartsWith, hne0]
      rw [hsw]
      simp only [Bool.false_eq_true, if_false]
      rw [ih (fun d hd => hsp d (List.mem_cons_of_mem _ hd))]
      simp

theorem dropWhile_ws_append (p : Char → Bool) :
    ∀ (sp v : List Char), (∀ c ∈ sp, p c = true) →
      (sp ++ v).dropWhile p = v.dropWhile p := by
  intro sp v
  induction sp with
  | nil => intro _; rfl
  | cons c sp' ih =>
    intro hsp
    rw [List.cons_append, List.dropWhile_cons, hsp c (List.mem_cons_self _ _)]
    simp only [if_true]
    exact ih (fun d hd => hsp d (List.mem_cons_of_mem _ hd))

theorem pyStrip_ws_append (sp v : List Char) (hsp : ∀ c ∈ sp, isPySpace c = true) :
    pyStrip (sp ++ v) = pyStrip v := by
  unfold pyStrip
  rw [dropWhile_ws_append isPySpace sp v hsp]

theorem segFor_applyPart_cat {s v : List Char} (w : Verdict)
    (h : segFor CATEGORY_LABEL s v) :
    applyPart w s = { w with category := pyStrip v } := by
  rcases h with ⟨hs, hv, -, hothers⟩
  have hsp : ∀ c ∈ s.takeWhile isPySpace, isPySpace c = true :=
    fun c hc => List.mem_takeWhile_imp hc
  have h1 : pyIn CATEGORY_LABEL s = true :=
    (pyIn_iff _ _).mpr ⟨s.takeWhile isPySpace, v, hs⟩
  have h2 : pyIn RESULT_LABEL s = false := hothers _ (by simp) (by decide)
  have h3 : pyIn REASON_LABEL s = false := hothers _ (by simp) (by decide)
  have hrep : pyReplace CATEGORY_LABEL [] s = s.takeWhile isPySpace ++ v := by
    conv_lhs => rw [hs]
    rw [pyReplace_ws_label CATEGORY_LABEL (by decide) (by decide) [] v hv _ hsp]
    simp
  rw [applyPart_cat w h1 h2 h3, hrep, pyStrip_ws_append _ _ hsp]

theorem segFor_applyPart_res {s v : List Char} (w : Verdict)
    (h : segFor RESULT_LABEL s v) :
    applyPart w s = { w with status := pyStrip v } := by
  rcases h with ⟨hs, hv, -, hothers⟩
  have hsp : ∀ c ∈ s.takeWhile isPySpace, isPySpace c = true :=
    fun c hc => List.mem_takeWhile_imp hc
  have h2 : pyIn RESULT_LABEL s = true :=
    (pyIn_iff _ _).mpr ⟨s.takeWhile isPySpace, v, hs⟩
  have h1 : pyIn CATEGORY_LABEL s = false := hothers _ (by simp) (by decide)
  have h3 : pyIn REASON_LABEL s = false := hothers _ (by simp) (by decide)
  have hrep : pyReplace RESULT_LABEL [] s = s.takeWhile isPySpace ++ v := by
    conv_lhs => rw [hs]
    rw [pyReplace_ws_label RESULT_LABEL (by decide) (by decide) [] v hv _ hsp]
    simp
  rw [applyPart_res w h1 h2 h3, hrep, pyStrip_ws_append _ _ hsp]

theorem segFor_applyPart_rea {s v : List Char} (w : Verdict)
    (h : segFor REASON_LABEL s v) :
    applyPart w s = { w with reason := pyStrip v } := by
  rcases h with ⟨hs, hv, -, hothers⟩
  have hsp : ∀ c ∈ s.takeWhile isPySpace, isPySpace c = true :=
    fun c hc => List.mem_takeWhile_imp hc
  have h3 : pyIn REASON_LABEL s = true :=
    (pyIn_iff _ _).mpr ⟨s.takeWhile isPySpace, v, hs⟩
  have h1 : pyIn CATEGORY_LABEL s = false := hothers _ (by simp) (by decide)
  have h2 : pyIn RESULT_LABEL s = false := hothers _ (by simp) (by decide)
  have hrep : pyReplace REASON_LABEL [] s = s.takeWhile isPySpace ++ v := by
    conv_lhs => rw [hs]
    rw [pyReplace_ws_label REASON_LABEL (by decide) (by decide) [] v hv _ hsp]
    simp
  rw [applyPart_rea w h1 h2 h3, hrep, pyStrip_ws_append _ _ hsp]

theorem foldl_category_default :
    ∀ (parts : List (List Char)) (w : Verdict),
      (∀ p ∈ parts, pyIn CATEGORY_LABEL p = false) →
      (parts.foldl applyPart w).category = w.category := by
  intro parts
  induction parts with
  | nil => intro w _; rfl
  | cons p ps ih =>
    intro w hp
    rw [List.foldl_cons, ih _ (fun q hq => hp q (List.mem_cons_of_mem _ hq))]
    have hc := hp p (List.mem_cons_self _ _)
    cases h2 : pyIn RESULT_LABEL p <;> cases h3 : pyIn REASON_LABEL p <;>
      simp [applyPart, hc, h2, h3]

theorem foldl_status_default :
    ∀ (parts : List (List Char)) (w : Verdict),
      (∀ p ∈ parts, pyIn RESULT_LABEL p = false) →
      (parts.foldl applyPart w).status = w.status := by
  intro parts
  induction parts with
  | nil => intro w _; rfl
  | cons p ps ih =>
    intro w hp
    rw [List.foldl_cons, ih _ (fun q hq => hp q (List.mem_cons_of_mem _ hq))]
    have hc := hp p (List.mem_cons_self _ _)
    cases h1 : pyIn CATEGORY_LABEL p <;> cases h3 : pyIn REASON_LABEL p <;>
      simp [applyPart, hc, h1, h3]

theorem foldl_reason_default :
    ∀ (parts : List (List Char)) (w : Verdict),
      (∀ p ∈ parts, pyIn REASON_LABEL p = false) →
      (parts.foldl applyPart w).reason = w.reason := by
  intro parts
  induction parts with
  | nil => intro w _; rfl
  | cons p ps ih =>
    intro w hp
    rw [List.foldl_cons, ih _ (fun q hq => hp q (List.mem_cons_of_mem _ hq))]
    have hc := hp p (List.mem_cons_self _ _)
    cases h1 : pyIn CATEGORY_LABEL p <;> cases h2 : pyIn RESULT_LABEL p <;>
      simp [applyPart, hc, h1, h2]

theorem parse_result_text_no_pipe {t : List Char} (h : pyIn PIPE t = false) :
    parse_result_text t =
      ⟨"General".data,
       if pyIn "FAIL".data (pyUpper t) then "FAIL".data else "PASS".data, t⟩ := by
  simp [parse_result_text, h]

theorem parse_result_text_pipe {t : List Char} (h : pyIn PIPE t = true) :
    parse_result_text t =
      (pySplit PIPE t).foldl applyPart ⟨"General".data, "FAIL".data, t⟩ := by
  simp [parse_result_text, h]

/-! ## Toolkit: the gateway's failover loop -/

theorem analyze_image_att_append (oracle : List Char → HttpOutcome) :
    ∀ candidates : List (List Char),
      ∃ t, (analyze_image oracle candidates).1 ++ t = candidates := by
  intro candidates
  induction candidates with
  | nil => exact ⟨[], rfl⟩
  | cons m rest ih =>
    simp only [analyze_image]
    cases ho : oracle m with
    | resp status text =>
      by_cases h200 : status = 200
      · simp only [h200, if_true, if_pos rfl]
        exact ⟨rest, rfl⟩
      · by_cases hretry : status ∈ RETRY_CODES
        · rcases ih with ⟨t, ht⟩
          simp only [if_neg h200, if_pos hretry]
          exact ⟨t, by simp [ht]⟩
        · simp only [if_neg h200, if_neg hretry]
          exact ⟨rest, rfl⟩
    | connFail =>
      rcases ih with ⟨t, ht⟩
      exact ⟨t, by simp [ht]⟩

theorem analyze_image_terminal_stops (oracle : List Char → HttpOutcome) :
    ∀ (candidates : List (List Char)) (m : List Char) (status : Nat) (text : List Char),
      m ∈ (analyze_image oracle candidates).1 →
      oracle m = .resp status text →
      claimTerminal (.resp status text) = true →
      (analyze_image oracle candidates).1.getLast? = some m
      ∧ (analyze_image oracle candidates).2 = abortText status := by
  intro candidates
  induction candidates with
  | nil =>
    intro m status text hm
    simp [analyze_image] at hm
  | cons m0 rest ih =>
    intro m status text hm ho hterm
    cases ho0 : oracle m0 with
    | resp st0 tx0 =>
      simp only [analyze_image, ho0] at hm ⊢
      by_cases h200 : st0 = 200
      · rw [if_pos h200] at hm ⊢
        simp only [List.mem_singleton] at hm
        subst hm
        rw [ho] at ho0
        rcases HttpOutcome.resp.inj ho0 with ⟨hst, -⟩
        subst hst
        rw [h200] at hterm
        simp [claimTerminal] at hterm
      · by_cases hretry : st0 ∈ RETRY_CODES
        · rw [if_neg h200, if_pos hretry] at hm ⊢
          rcases List.mem_cons.mp hm with hm0 | hm'
          · subst hm0
            rw [ho] at ho0
            rcases HttpOutcome.resp.inj ho0 with ⟨hst, -⟩
            subst hst
            simp only [claimTerminal, Bool.and_eq_true, decide_eq_true_eq] at hterm
            exact absurd hretry hterm.2
          · rcases ih m status text hm' ho hterm with ⟨hlast, hres⟩
            refine ⟨?_, hres⟩
            cases hatt : (analyze_image oracle rest).1 with
            | nil => rw [hatt] at hm'; cases hm'
            | cons q qs =>
              show (m0 :: q :: qs).getLast? = some m
              rw [List.getLast?_cons_cons]
              rw [hatt] at hlast
              exact hlast
        · rw [if_neg h200, if_neg hretry] at hm ⊢
          simp only [List.mem_singleton] at hm
          subst hm
          rw [ho] at ho0
          rcases HttpOutcome.resp.inj ho0 with ⟨hst, -⟩
          subst hst
          exact ⟨rfl, rfl⟩
    | connFail =>
      simp only [analyze_image, ho0] at hm ⊢
      rcases List.mem_cons.mp hm with hm0 | hm'
      · subst hm0
        rw [ho] at ho0
        cases ho0
      · rcases ih m status text hm' ho hterm with ⟨hlast, hres⟩
        refine ⟨?_, hres⟩
        cases hatt : (analyze_image oracle rest).1 with
        | nil => rw [hatt] at hm'; cases hm'
        | cons q qs =>
          show (m0 :: q :: qs).getLast? = some m
          rw [List.getLast?_cons_cons]
          rw [hatt] at hlast
          exact hlast

/-! ## Claim theorems -/

/-- C4: for every capture and every sequence of per-candidate responses, the
Model Gateway performs at most `len(candidates)` dispatch attempts, never
dispatches to the same candidate twice, and performs zero further attempts
after a terminal (neither 2xx nor transient-classified) response, which it
surfaces as its raw `"AI Error <status>"` error text. -/
theorem c4_gateway_attempt_bounds (oracle : List Char → HttpOutcome)
    (candidates : List (List Char)) :
    (analyze_image oracle candidates).1.length ≤ candidates.length
    ∧ (candidates.Nodup → (analyze_image oracle candidates).1.Nodup)
    ∧ (∀ (m : List Char) (status : Nat) (text : List Char),
        m ∈ (analyze_image oracle candidates).1 →
        oracle m = .resp status text →
        claimTerminal (.resp status text) = true →
        (analyze_image oracle candidates).1.getLast? = some m
        ∧ (analyze_image oracle candidates).2 = abortText status) := by
  rcases analyze_image_att_append oracle candidates with ⟨t, ht⟩
  refine ⟨?_, ?_, ?_⟩
  · have hl := congrArg List.length ht
    rw [List.length_append] at hl
    omega
  · intro hnd
    rw [← ht] at hnd
    exact (List.nodup_append.mp hnd).1
  · intro m status text hm ho hterm
    exact analyze_image_terminal_stops oracle candidates m status text hm ho hterm

/-- Witness for C4: with the fixed candidate list and an oracle whose first
candidate answers a terminal 403, the gateway dispatches once, stops, and
surfaces `"AI Error 403"`. -/
theorem c4_gateway_attempt_bounds_witness :
    (analyze_image terminalOracle models_to_try).1 = ["gemini-1.5-flash".data]
    ∧ (analyze_image terminalOracle models_to_try).2 = abortText 403 := by
  refine ⟨by decide, ?_⟩
  exact ((c4_gateway_attempt_bounds terminalOracle models_to_try).2.2
    "gemini-1.5-flash".data 403 "quota exceeded".data
    (by decide) (by decide) (by decide)).2

/-- C1 (code bug): the Verdict Parser maps the EXHAUSTED sentinel and the
transport-fault marker `"AI Error 400"` to status `"PASS"`, not `"FAIL"`:
neither input contains the delimiter `"|"`, so the free-text fallback applies,
and neither contains the substring `"FAIL"`, so the fallback chooses
`"PASS"` — an unanswered inference request reads as compliant. -/
theorem c1_sentinel_and_abort_parse_to_pass :
    parse_result_text EXHAUSTED = ⟨"General".data, "PASS".data, EXHAUSTED⟩
    ∧ parse_result_text (abortText 400)
        = ⟨"General".data, "PASS".data, abortText 400⟩ := by decide

/-- C3 counterexample: on the delimiter input `"Category: | Result: MAYBE"`
the parser returns status `"MAYBE"` — neither `"PASS"` nor `"FAIL"` — and an
empty category, refuting the claimed invariant. -/
theorem c3_counterexample_delimiter_input :
    parse_result_text "Category: | Result: MAYBE".data
      = ⟨[], "MAYBE".data, "Category: | Result: MAYBE".data⟩
    ∧ "MAYBE".data ≠ "PASS".data ∧ "MAYBE".data ≠ "FAIL".data
    ∧ ([] : List Char) ≠ "General".data := by decide

/-- C3 amended: the parser is total and, for every input that lacks the
delimiter `"|"`, returns status exactly `"PASS"` or `"FAIL"` together with the
non-empty default category `"General"`; inputs containing the delimiter take
status and category verbatim from the trimmed labelled segments, which need
not satisfy the invariant. -/
theorem c3_no_delimiter_invariant (t : List Char) (h : pyIn PIPE t = false) :
    ((parse_result_text t).status = "FAIL".data ∨ (parse_result_text t).status = "PASS".data)
    ∧ (parse_result_text t).category = "General".data
    ∧ (parse_result_text t).category ≠ [] := by
  rw [parse_result_text_no_pipe h]
  refine ⟨?_, rfl, ?_⟩
  · cases hf : pyIn "FAIL".data (pyUpper t)
    · exact Or.inr (by simp [hf])
    · exact Or.inl (by simp [hf])
  · show "General".data ≠ ([] : List Char)
    decide

/-- Witness for C3 (amended) at a concrete delimiter-free input. -/
theorem c3_no_delimiter_invariant_witness :
    (parse_result_text "All good here".data).status = "PASS".data
    ∧ (parse_result_text "All good here".data).category = "General".data := by
  have h := c3_no_delimiter_invariant "All good here".data (by decide)
  exact ⟨by decide, h.2.1⟩

/-- C6: for every input lacking the delimiter `"|"`, the parser returns status
`"FAIL"` exactly when the uppercased text contains `"FAIL"` as a substring
(otherwise `"PASS"`), with category `"General"` and reason the raw input. -/
theorem c6_free_text_fail_iff_contains_fail (t : List Char)
    (h : pyIn PIPE t = false) :
    ((parse_result_text t).status = "FAIL".data ↔
      ∃ pre post, pyUpper t = pre ++ "FAIL".data ++ post)
    ∧ ((parse_result_text t).status = "FAIL".data ∨
        (parse_result_text t).status = "PASS".data)
    ∧ (parse_result_text t).category = "General".data
    ∧ (parse_result_text t).reason = t
    ∧ ∀ pre post, t ≠ pre ++ '|' :: post := by
  have hp : PIPE = ['|'] := rfl
  have hnot : ∀ pre post, t ≠ pre ++ '|' :: post := by
    intro pre post heq
    have hc : pyIn PIPE t = true :=
      (pyIn_iff PIPE t).mpr ⟨pre, post, by simp [hp, heq]⟩
    rw [h] at hc
    cases hc
  rw [parse_result_text_no_pipe h]
  refine ⟨?_, ?_, rfl, rfl, hnot⟩
  · cases hf : pyIn "FAIL".data (pyUpper t)
    · constructor
      · intro hfa
        simp only [hf, Bool.false_eq_true, if_false] at hfa
        exact absurd hfa (by decide)
      · rintro ⟨pre, post, hd⟩
        have hc : pyIn "FAIL".data (pyUpper t) = true := (pyIn_iff _ _).mpr ⟨pre, post, hd⟩
        rw [hf] at hc
        cases hc
    · constructor
      · intro _
        exact (pyIn_iff _ _).mp hf
      · intro _
        simp [hf]
  · cases hf : pyIn "FAIL".data (pyUpper t)
    · exact Or.inr (by simp [hf])
    · exact Or.inl (by simp [hf])

/-- Witness for C6: `"Looks fine, PASS"` has no delimiter and no `"FAIL"`
substring, so the parser returns `"PASS"`. -/
theorem c6_free_text_witness :
    (parse_result_text "Looks fine, PASS".data).status = "PASS".data
    ∧ (parse_result_text "Looks fine, PASS".data).reason = "Looks fine, PASS".data := by
  have h := c6_free_text_fail_iff_contains_fail "Looks fine, PASS".data (by decide)
  exact ⟨by decide, h.2.2.2.1⟩

theorem parse_three_parts {s1 s2 s3 : List Char}
    (h1 : '|' ∉ s1) (h2 : '|' ∉ s2) (h3 : '|' ∉ s3) :
    parse_result_text (s1 ++ '|' :: (s2 ++ '|' :: s3))
      = applyPart (applyPart (applyPart
          ⟨"General".data, "FAIL".data, s1 ++ '|' :: (s2 ++ '|' :: s3)⟩ s1) s2) s3 := by
  have hp : PIPE = ['|'] := rfl
  have hpipe : pyIn PIPE (s1 ++ '|' :: (s2 ++ '|' :: s3)) = true :=
    (pyIn_iff _ _).mpr ⟨s1, s2 ++ '|' :: s3, by simp [hp]⟩
  rw [parse_result_text_pipe hpipe, hp,
    pySplit_single_append _ h1, pySplit_single_append _ h2, pySplit_single_of_not_mem h3]
  simp only [List.foldl_cons, List.foldl_nil]

/-- C5: for input consisting of the three labelled segments in any of the six
orders, separated by `"|"`, the parser assigns each field exactly the labelled
value with the label removed and surrounding whitespace stripped; and on any
delimiter input, each field whose label is absent keeps its default
(`category="General"`, `status="FAIL"`, `reason=` the raw input). -/
theorem c5_labeled_segments_and_defaults :
    (∀ vc vr vn s1 s2 s3, threeSegs vc vr vn s1 s2 s3 →
      parse_result_text (s1 ++ '|' :: (s2 ++ '|' :: s3))
        = ⟨pyStrip vc, pyStrip vr, pyStrip vn⟩)
    ∧ (∀ rt, pyIn PIPE rt = true →
        (pyIn CATEGORY_LABEL rt = false → (parse_result_text rt).category = "General".data)
        ∧ (pyIn RESULT_LABEL rt = false → (parse_result_text rt).status = "FAIL".data)
        ∧ (pyIn REASON_LABEL rt = false → (parse_result_text rt).reason = rt)) := by
  constructor
  · intro vc vr vn s1 s2 s3 hseg
    rcases hseg with ⟨hA, hB, hC⟩ | ⟨hA, hB, hC⟩ | ⟨hA, hB, hC⟩ |
      ⟨hA, hB, hC⟩ | ⟨hA, hB, hC⟩ | ⟨hA, hB, hC⟩
    · rw [parse_three_parts hA.2.2.1 hB.2.2.1 hC.2.2.1,
        segFor_applyPart_cat _ hA, segFor_applyPart_res _ hB, segFor_applyPart_rea _ hC]
    · rw [parse_three_parts hA.2.2.1 hB.2.2.1 hC.2.2.1,
        segFor_applyPart_cat _ hA, segFor_applyPart_rea _ hB, segFor_applyPart_res _ hC]
    · rw [parse_three_parts hA.2.2.1 hB.2.2.1 hC.2.2.1,
        segFor_applyPart_res _ hA, segFor_applyPart_cat _ hB, segFor_applyPart_rea _ hC]
    · rw [parse_three_parts hA.2.2.1 hB.2.2.1 hC.2.2.1,
        segFor_applyPart_res _ hA, segFor_applyPart_rea _ hB, segFor_applyPart_cat _ hC]
    · rw [parse_three_parts hA.2.2.1 hB.2.2.1 hC.2.2.1,
        segFor_applyPart_rea _ hA, segFor_applyPart_cat _ hB, segFor_applyPart_res _ hC]
    · rw [parse_three_parts hA.2.2.1 hB.2.2.1 hC.2.2.1,
        segFor_applyPart_rea _ hA, segFor_applyPart_res _ hB, segFor_applyPart_cat _ hC]
  · intro rt hpipe
    have hparts := parse_result_text_pipe hpipe
    have habs : ∀ lab, pyIn lab rt = false → ∀ p ∈ pySplit PIPE rt, pyIn lab p = false := by
      intro lab hno p hp
      cases hc : pyIn lab p
      · rfl
      · have ht := pyIn_of_mem_pySplit lab PIPE rt.length rt le_rfl p hp hc
        rw [hno] at ht
        cases ht
    refine ⟨fun hno => ?_, fun hno => ?_, fun hno => ?_⟩
    · rw [hparts]
      exact foldl_category_default _ _ (habs _ hno)
    · rw [hparts]
      exact foldl_status_default _ _ (habs _ hno)
    · rw [hparts]
      exact foldl_reason_default _ _ (habs _ hno)

/-- Witness for C5: the spec's scenario A text, plus a delimiter input with an
absent `Category:` label keeping the default category. -/
theorem c5_labeled_segments_witness :
    parse_result_text
        ("Category: Trial Room ".data ++ '|' :: (" Result: FAIL ".data ++ '|' :: " Reason: Messy desk".data))
      = ⟨"Trial Room".data, "FAIL".data, "Messy desk".data⟩
    ∧ (parse_result_text "Result: PASS | note".data).category = "General".data := by
  constructor
  · have h := c5_labeled_segments_and_defaults.1 " Trial Room ".data " FAIL ".data
      " Messy desk".data "Category: Trial Room ".data " Result: FAIL ".data
      " Reason: Messy desk".data (Or.inl ⟨by decide, by decide, by decide⟩)
    exact h.trans (by decide)
  · exact ((c5_labeled_segments_and_defaults.2 "Result: PASS | note".data (by decide)).1
      (by decide))

/-- C2 counterexample: with healthy storage and record-store collaborators, a
capture whose gateway output is the terminal marker `"AI Error 400"` is not
persisted at all — the pipeline skips the Persistence Writer and shows the
raw text, so no AuditRecord and no stored object exist for the capture. -/
theorem c2_counterexample_abort_capture_not_persisted :
    audit_pipeline healthyEnv badRequestOracle "S001".data "Asha".data
      = .errorShown (abortText 400)
    ∧ outcome_inserted (audit_pipeline healthyEnv badRequestOracle "S001".data "Asha".data)
      = none
    ∧ outcome_stored_key (audit_pipeline healthyEnv badRequestOracle "S001".data "Asha".data)
      = none := by decide

/-- C2 amended: the persistence sequence runs exactly for captures whose
gateway output does not contain `"AI Error"`; for those, with succeeding
collaborators, the archive object is stored under the derived key and an
AuditRecord combining the parsed verdict, the resolved URL and the capture
metadata is inserted.  In particular an EXHAUSTED-sentinel capture still
yields an inserted AuditRecord — though with result `"PASS"` and the raw
sentinel text as its reason, not the claimed FAIL verdict. -/
theorem c2_persistence_for_non_marker_output
    (env : SaveEnv) (sc mgr t : List Char)
    (hm : pyIn "AI Error".data t = false)
    (hup : env.uploadResult = .ok ()) (hins : env.insertResult = .ok ()) :
    run_smart_audit env sc mgr t = .saved (save_audit_to_cloud env sc mgr t)
    ∧ outcome_inserted (run_smart_audit env sc mgr t)
        = some ⟨sc, mgr, (parse_result_text t).category, (parse_result_text t).status,
                (parse_result_text t).reason, env.publicUrl, env.createdAt⟩
    ∧ outcome_stored_key (run_smart_audit env sc mgr t)
        = some (sc ++ "_".data ++ env.timestamp ++ ".jpg".data)
    ∧ (t = EXHAUSTED →
        outcome_inserted (run_smart_audit env sc mgr t)
          = some ⟨sc, mgr, "General".data, "PASS".data, EXHAUSTED,
                  env.publicUrl, env.createdAt⟩) := by
  have hrun : run_smart_audit env sc mgr t = .saved (save_audit_to_cloud env sc mgr t) := by
    simp [run_smart_audit, hm]
  refine ⟨hrun, ?_, ?_, ?_⟩
  · rw [hrun]
    simp [outcome_inserted, save_audit_to_cloud, hup, hins]
  · rw [hrun]
    simp [outcome_stored_key, save_audit_to_cloud, hup, hins]
  · intro ht
    subst ht
    rw [hrun]
    have hparse : parse_result_text EXHAUSTED
        = ⟨"General".data, "PASS".data, EXHAUSTED⟩ := by decide
    simp [outcome_inserted, save_audit_to_cloud, hup, hins, hparse]

/-- Witness for C2 (amended): the sentinel capture is persisted with a PASS
result and the sentinel as reason. -/
theorem c2_persistence_witness :
    outcome_inserted (run_smart_audit healthyEnv "S001".data "Asha".data EXHAUSTED)
      = some ⟨"S001".data, "Asha".data, "General".data, "PASS".data, EXHAUSTED,
              healthyEnv.publicUrl, healthyEnv.createdAt⟩ :=
  (c2_persistence_for_non_marker_output healthyEnv "S001".data "Asha".data EXHAUSTED
    (by decide) rfl rfl).2.2.2 rfl

/-- C8: if the object-storage upload raises then no AuditRecord is inserted,
and whenever the store-write or the record-insert raises the Writer returns
the explicit failure value (success flag `False`), distinct from every
success return carrying a Verdict, instead of propagating the exception. -/
theorem c8_persistence_failure_isolated :
    (∀ env sc mgr t e, env.uploadResult = .error e →
        save_audit_to_cloud env sc mgr t = ⟨none, none, .err e⟩)
    ∧ (∀ env sc mgr t e, env.uploadResult = .ok () → env.insertResult = .error e →
        (save_audit_to_cloud env sc mgr t).inserted = none
        ∧ (save_audit_to_cloud env sc mgr t).retval = .err e)
    ∧ (∀ e status category reason, SaveRet.err e ≠ SaveRet.ok status category reason) := by
  refine ⟨?_, ?_, ?_⟩
  · intro env sc mgr t e hup
    simp [save_audit_to_cloud, hup]
  · intro env sc mgr t e hup hins
    constructor <;> simp [save_audit_to_cloud, hup, hins]
  · intro e status category reason hcontra
    exact SaveRet.noConfusion hcontra

/-- Witness for C8: with a raising storage upload the call returns the
explicit failure and inserts nothing. -/
theorem c8_persistence_failure_witness :
    save_audit_to_cloud failEnv "S001".data "Asha".data "Category: X | Result: PASS".data
      = ⟨none, none, .err "storage unreachable".data⟩ :=
  c8_persistence_failure_isolated.1 failEnv "S001".data "Asha".data
    "Category: X | Result: PASS".data "storage unreachable".data rfl

/-- C9: whenever the gateway's returned text contains `"AI Error"` — which
includes every terminal-abort return `abortText status` — the pipeline skips
the Persistence Writer entirely (nothing stored, nothing inserted) and shows
the raw text as an error instead. -/
theorem c9_marker_skips_persistence :
    (∀ env sc mgr t, pyIn "AI Error".data t = true →
        run_smart_audit env sc mgr t = .errorShown t
        ∧ outcome_inserted (run_smart_audit env sc mgr t) = none
        ∧ outcome_stored_key (run_smart_audit env sc mgr t) = none)
    ∧ (∀ status, pyIn "AI Error".data (abortText status) = true) := by
  constructor
  · intro env sc mgr t h
    have hrun : run_smart_audit env sc mgr t = .errorShown t := by
      simp [run_smart_audit, h]
    exact ⟨hrun, by rw [hrun]; rfl, by rw [hrun]; rfl⟩
  · intro status
    have hsp : abortText status = "AI Error".data ++ (' ' :: (Nat.repr status).data) := by
      show "AI Error ".data ++ (Nat.repr status).data = _
      have hd : "AI Error ".data = "AI Error".data ++ [' '] := by decide
      rw [hd, List.append_assoc]
      rfl
    rw [hsp]
    exact pyIn_append_self _ _

/-- Witness for C9 at the concrete marker text `"AI Error 503"` (a genuine
model output containing the marker would be treated identically). -/
theorem c9_marker_skips_persistence_witness :
    run_smart_audit healthyEnv "S001".data "Asha".data "AI Error 503".data
      = .errorShown "AI Error 503".data :=
  (c9_marker_skips_persistence.1 healthyEnv "S001".data "Asha".data
    "AI Error 503".data (by decide)).1

/-- C7 counterexample: the transport-form encoding is the unscaled original —
lines 32–34 serialize the image without any resize — so a 1600×1200 capture
is sent with longer edge 1600, exceeding the claimed 800 bound. -/
theorem c7_counterexample_transport_unbounded :
    toTransportDims 1600 1200 = (1600, 1200)
    ∧ ¬ ((toTransportDims 1600 1200).1 ≤ 800) := by decide

/-- C7 amended: only the archive-form encoding is dimension-bounded: for every
input with positive dimensions both archive edges are at most 800, preserving
the aspect ratio up to rounding, the rescaling is a no-op for images already
within the bound, and the transport form keeps the original dimensions. -/
theorem c7_archive_form_bounded (w h : Nat) (hw : 1 ≤ w) (hh : 1 ≤ h) :
    (thumbnail_dims 800 w h).1 ≤ 800 ∧ (thumbnail_dims 800 w h).2 ≤ 800
    ∧ (w ≤ 800 → h ≤ 800 → thumbnail_dims 800 w h = (w, h))
    ∧ toTransportDims w h = (w, h) := by
  have key : (thumbnail_dims 800 w h).1 ≤ 800 ∧ (thumbnail_dims 800 w h).2 ≤ 800 := by
    unfold thumbnail_dims
    by_cases hin : w ≤ 800 ∧ h ≤ 800
    · rw [if_pos hin]
      exact ⟨hin.1, hin.2⟩
    · rw [if_neg hin]
      by_cases hwh : w ≤ h
      · rw [if_pos hwh]
        have hm : 800 * w ≤ 800 * h := Nat.mul_le_mul le_rfl hwh
        have hr : rnd (800 * w) h ≤ 800 := by
          unfold rnd
          have h801 : (800 * w + h / 2) / h < 801 := by
            rw [Nat.div_lt_iff_lt_mul (by omega : 0 < h)]
            omega
          omega
        exact ⟨max_le (by omega) hr, le_rfl⟩
      · rw [if_neg hwh]
        have hm : 800 * h ≤ 800 * w := Nat.mul_le_mul le_rfl (by omega)
        have hr : rnd (800 * h) w ≤ 800 := by
          unfold rnd
          have h801 : (800 * h + w / 2) / w < 801 := by
            rw [Nat.div_lt_iff_lt_mul (by omega : 0 < w)]
            omega
          omega
        exact ⟨le_rfl, max_le (by omega) hr⟩
  refine ⟨key.1, key.2, ?_, rfl⟩
  intro hw8 hh8
  unfold thumbnail_dims
  rw [if_pos ⟨hw8, hh8⟩]

/-- Witness for C7 (amended) at 1600×1200 (shrunk to within bound) and at
400×300 (no-op). -/
theorem c7_archive_form_bounded_witness :
    (thumbnail_dims 800 1600 1200).1 ≤ 800 ∧ (thumbnail_dims 800 1600 1200).2 ≤ 800
    ∧ thumbnail_dims 800 400 300 = (400, 300) := by
  have h1 := c7_archive_form_bounded 1600 1200 (by omega) (by omega)
  have h2 := c7_archive_form_bounded 400 300 (by omega) (by omega)
  exact ⟨h1.1, h1.2.1, h2.2.2.1 (by omega) (by omega)⟩

/-- C10: neither producing the transport form nor the archive form mutates the
caller's original image object: the gateway only serializes it (the transport
bytes carry the original dimensions) and the Persistence Writer thumbnails a
freshly allocated copy, so after the full pipeline the original image's
dimensions are unchanged. -/
theorem c10_pipeline_preserves_original (H : ImageHeap) (i : Nat) (hi : i < H.next) :
    (pipeline_image_heap H i).dims i = H.dims i
    ∧ toTransportDims (H.dims i).1 (H.dims i).2 = H.dims i
    ∧ (save_audit_image_steps H i).2 ≠ i
    ∧ (save_audit_image_steps H i).1.dims (save_audit_image_steps H i).2
        = thumbnail_dims 800 (H.dims i).1 (H.dims i).2 := by
  have hne : i ≠ H.next := by omega
  refine ⟨?_, rfl, ?_, ?_⟩
  · simp [pipeline_image_heap, save_audit_image_steps, heap_copy, heap_thumbnail, hne]
  · simp [save_audit_image_steps, heap_copy]
    omega
  · simp [save_audit_image_steps, heap_copy, heap_thumbnail]

/-- Witness for C10: a 1600×1200 original keeps its dimensions through the
full pipeline. -/
theorem c10_pipeline_preserves_original_witness :
    (pipeline_image_heap bigImageHeap 0).dims 0 = (1600, 1200) := by
  have h := c10_pipeline_preserves_original bigImageHeap 0 (by decide)
  exact h.1.trans rfl
